import Mathlib

/-!
Verification of the key-registry HTTP gateway (`src/server.js`) and its RSA
key codec against its natural-language specification.

The embedding models:

* JavaScript values as far as the handlers inspect them (`JsVal`, with the
  truthiness test used by the field-presence checks);
* the RSA key codec `rsaJsonToDerBytes` / `derBytesToRsaJson`.  The calls
  into the `node-forge` library (big-integer parsing, ASN.1 DER
  serialization and parsing) are not part of this repository's sources, so
  the DER layer is modelled from the specification: the standard DER
  encoding of an RSA public key as `SEQUENCE { INTEGER n, INTEGER e }`,
  with strict (distinguished) length and integer minimality on the parsing
  side, failing with a decoding error otherwise;
* JavaScript's `parseInt` on a decimal string of digits as the exact value
  rounded to the nearest IEEE double-representable integer (exact below
  `2 ^ 53`, round-to-nearest ties-to-even at 53 significant bits above);
* the four HTTP handlers (`registerUser`, `getUser`, `updateUser`,
  `deleteUser`) as pure functions of the request and of an abstract
  registry contract, returning the HTTP response together with the list of
  contract calls the handler performed.

Bytes are `Nat`s; the decoder validates that every consumed byte is below
256, so its soundness theorem holds over arbitrary `List Nat` inputs.
-/

namespace KeyGateway

/-! ## JavaScript value model -/

/-- A JavaScript value as far as the gateway's handlers inspect request
fields: a string, an integer number (idealized as `Int`), or `undefined`
for an absent field. -/
inductive JsVal where
  | str (s : String)
  | num (i : Int)
  | undef
deriving DecidableEq, Repr

/-- JavaScript truthiness of a `JsVal`, as tested by
`!userId || !publicKey?.n || !publicKey?.e`: the empty string, the number
`0` and `undefined` are falsy. -/
def truthy : JsVal → Bool
  | .str s => !s.isEmpty
  | .num i => i != 0
  | .undef => false

/-! ## Decimal digit strings -/

/-- The numeric value of a decimal digit character, `none` for any other
character. -/
def digitVal (c : Char) : Option Nat :=
  if '0' ≤ c ∧ c ≤ '9' then some (c.toNat - 48) else none

/-- The value of a big-endian list of decimal digit characters; `none` if
any character is not a digit.  The empty list has value `0`. -/
def digitsVal : List Char → Option Nat
  | [] => some 0
  | c :: cs =>
    match digitVal c, digitsVal cs with
    | some d, some r => some (d * 10 ^ cs.length + r)
    | _, _ => none

/-- Strict base-10 parse of a string: at least one character, all decimal
digits.  Models the specification's "valid base-10 integer" requirement on
the modulus and exponent strings. -/
def parseDecimal (s : String) : Option Nat :=
  match s.data with
  | [] => none
  | cs => digitsVal cs

/-- The character for a decimal digit. -/
def digitChar (d : Nat) : Char := Char.ofNat (48 + d)

/-- Fuel-driven canonical decimal digits of a number, most significant
first; the empty list for `0`.  The fuel (first argument) only bounds the
recursion depth so that the definition is structural and evaluates inside
the kernel. -/
def natToDecAuxF : Nat → Nat → List Char
  | _, 0 => []
  | 0, _ + 1 => []
  | f + 1, v + 1 => natToDecAuxF f ((v + 1) / 10) ++ [digitChar ((v + 1) % 10)]

/-- Canonical decimal digits of a number, most significant first; the
empty list for `0`. -/
def natToDecAux (v : Nat) : List Char := natToDecAuxF v v

/-- Canonical decimal digit characters of a number (`['0']` for `0`). -/
def natToDecChars (v : Nat) : List Char :=
  match natToDecAux v with
  | [] => ['0']
  | c :: cs => c :: cs

/-- Canonical decimal string of a number, as produced by a big-integer
`toString`. -/
def natToDecString (v : Nat) : String := String.mk (natToDecChars v)

/-- Decimal string of an integer (canonical, with a leading minus sign for
negative values), modelling JavaScript `Number.prototype.toString` on the
integers the gateway handles. -/
def intToDecString (i : Int) : String :=
  if i < 0 then String.mk ('-' :: natToDecChars i.natAbs) else natToDecString i.natAbs

/-- The string a `JsVal` stringifies to via `.toString()`. -/
def JsVal.toJsString : JsVal → String
  | .str s => s
  | .num i => intToDecString i
  | .undef => "undefined"

/-! ## Base-256 byte strings -/

/-- Fuel-driven big-endian base-256 digits of a number; the empty list for
`0`.  The fuel only bounds recursion depth. -/
def natToBytesF : Nat → Nat → List Nat
  | _, 0 => []
  | 0, _ + 1 => []
  | f + 1, v + 1 => natToBytesF f ((v + 1) / 256) ++ [(v + 1) % 256]

/-- Minimal big-endian base-256 digits of a number (empty for `0`): the
contents bytes of an unsigned quantity. -/
def natToBytes (v : Nat) : List Nat := natToBytesF v v

/-- The number denoted by a big-endian list of base-256 digits. -/
def bytesToNat : List Nat → Nat
  | [] => 0
  | b :: bs => b * 256 ^ bs.length + bytesToNat bs

/-! ### Fuel elimination -/

theorem natToDecAuxF_congr : ∀ f g v : Nat, v ≤ f → v ≤ g →
    natToDecAuxF f v = natToDecAuxF g v := by
  intro f
  induction f with
  | zero =>
    intro g v hf _
    interval_cases v
    cases g <;> rfl
  | succ f ih =>
    intro g v hf hg
    match v, g with
    | 0, 0 => rfl
    | 0, _ + 1 => rfl
    | v + 1, g + 1 =>
      show natToDecAuxF f ((v + 1) / 10) ++ _ = natToDecAuxF g ((v + 1) / 10) ++ _
      have hd : (v + 1) / 10 ≤ v := Nat.lt_succ_iff.mp (Nat.div_lt_self (Nat.succ_pos v) (by norm_num))
      rw [ih g ((v + 1) / 10) (le_trans hd (Nat.lt_succ_iff.mp hf)) (le_trans hd (Nat.lt_succ_iff.mp hg))]

/-- Unfolding equation for `natToDecAux`, fuel eliminated. -/
theorem natToDecAux_eq (v : Nat) :
    natToDecAux v = if v = 0 then [] else natToDecAux (v / 10) ++ [digitChar (v % 10)] := by
  match v with
  | 0 => rfl
  | v + 1 =>
    show natToDecAuxF v ((v + 1) / 10) ++ _ = _
    have hd : (v + 1) / 10 ≤ v := Nat.lt_succ_iff.mp (Nat.div_lt_self (Nat.succ_pos v) (by norm_num))
    rw [if_neg (Nat.succ_ne_zero v)]
    unfold natToDecAux
    rw [natToDecAuxF_congr v ((v + 1) / 10) ((v + 1) / 10) hd le_rfl]

theorem natToBytesF_congr : ∀ f g v : Nat, v ≤ f → v ≤ g →
    natToBytesF f v = natToBytesF g v := by
  intro f
  induction f with
  | zero =>
    intro g v hf _
    interval_cases v
    cases g <;> rfl
  | succ f ih =>
    intro g v hf hg
    match v, g with
    | 0, 0 => rfl
    | 0, _ + 1 => rfl
    | v + 1, g + 1 =>
      show natToBytesF f ((v + 1) / 256) ++ _ = natToBytesF g ((v + 1) / 256) ++ _
      have hd : (v + 1) / 256 ≤ v := Nat.lt_succ_iff.mp (Nat.div_lt_self (Nat.succ_pos v) (by norm_num))
      rw [ih g ((v + 1) / 256) (le_trans hd (Nat.lt_succ_iff.mp hf)) (le_trans hd (Nat.lt_succ_iff.mp hg))]

/-- Unfolding equation for `natToBytes`, fuel eliminated. -/
theorem natToBytes_eq (v : Nat) :
    natToBytes v = if v = 0 then [] else natToBytes (v / 256) ++ [v % 256] := by
  match v with
  | 0 => rfl
  | v + 1 =>
    show natToBytesF v ((v + 1) / 256) ++ _ = _
    have hd : (v + 1) / 256 ≤ v := Nat.lt_succ_iff.mp (Nat.div_lt_self (Nat.succ_pos v) (by norm_num))
    rw [if_neg (Nat.succ_ne_zero v)]
    unfold natToBytes
    rw [natToBytesF_congr v ((v + 1) / 256) ((v + 1) / 256) hd le_rfl]

theorem bytesToNat_append_singleton (bs : List Nat) (b : Nat) :
    bytesToNat (bs ++ [b]) = bytesToNat bs * 256 + b := by
  induction bs with
  | nil => simp [bytesToNat]
  | cons x xs ih =>
    show x * 256 ^ (xs ++ [b]).length + bytesToNat (xs ++ [b]) =
      (x * 256 ^ xs.length + bytesToNat xs) * 256 + b
    rw [ih, List.length_append]
    simp only [List.length_cons, List.length_nil]
    ring

theorem bytesToNat_natToBytes (v : Nat) : bytesToNat (natToBytes v) = v := by
  induction v using Nat.strong_induction_on with
  | _ v ih =>
    rw [natToBytes_eq]
    by_cases h : v = 0
    · simp [h, bytesToNat]
    · rw [if_neg h, bytesToNat_append_singleton,
        ih (v / 256) (Nat.div_lt_self (Nat.pos_of_ne_zero h) (by norm_num))]
      omega

theorem natToBytes_eq_nil_iff (v : Nat) : natToBytes v = [] ↔ v = 0 := by
  constructor
  · intro h
    by_contra hv
    rw [natToBytes_eq, if_neg hv] at h
    exact absurd h (by simp)
  · intro h; subst h; rfl

theorem natToBytes_head (v : Nat) (hv : v ≠ 0) :
    ∃ h t, natToBytes v = h :: t ∧ h ≠ 0 := by
  induction v using Nat.strong_induction_on with
  | _ v ih =>
    rw [natToBytes_eq, if_neg hv]
    by_cases hq : v / 256 = 0
    · refine ⟨v % 256, [], ?_, ?_⟩
      · rw [(natToBytes_eq_nil_iff _).mpr hq]; rfl
      · have : v < 256 := (Nat.div_eq_zero_iff (by norm_num)).mp hq
        rw [Nat.mod_eq_of_lt this]
        exact hv
    · obtain ⟨h, t, het, hne⟩ := ih (v / 256) (Nat.div_lt_self (Nat.pos_of_ne_zero hv) (by norm_num)) hq
      exact ⟨h, t ++ [v % 256], by rw [het]; rfl, hne⟩

theorem natToBytes_lt_256 (v : Nat) : ∀ b ∈ natToBytes v, b < 256 := by
  induction v using Nat.strong_induction_on with
  | _ v ih =>
    intro b hb
    rw [natToBytes_eq] at hb
    by_cases h : v = 0
    · simp [h] at hb
    · rw [if_neg h, List.mem_append] at hb
      rcases hb with hb | hb
      · exact ih (v / 256) (Nat.div_lt_self (Nat.pos_of_ne_zero h) (by norm_num)) b hb
      · simp only [List.mem_singleton] at hb
        subst hb
        exact Nat.mod_lt _ (by norm_num)

theorem bytesToNat_cons_zero (bs : List Nat) : bytesToNat (0 :: bs) = bytesToNat bs := by
  simp [bytesToNat]

theorem bytesToNat_pos_of_head_ne_zero (h : Nat) (t : List Nat) (hh : h ≠ 0) :
    bytesToNat (h :: t) ≠ 0 := by
  simp only [bytesToNat]
  have : 1 ≤ h := Nat.pos_of_ne_zero hh
  have hp : 0 < 256 ^ t.length := Nat.pos_pow_of_pos _ (by norm_num)
  have : 256 ^ t.length ≤ h * 256 ^ t.length := Nat.le_mul_of_pos_left _ (Nat.pos_of_ne_zero hh)
  omega

/-- A big-endian byte list with genuine bytes and no leading zero is
recovered from its value: `natToBytes` is a left inverse of `bytesToNat`
on minimal byte strings. -/
theorem natToBytes_bytesToNat : ∀ bs : List Nat, (∀ b ∈ bs, b < 256) →
    bs.head? ≠ some 0 → natToBytes (bytesToNat bs) = bs := by
  intro bs
  induction bs using List.reverseRecOn with
  | nil => intro _ _; rfl
  | append_singleton xs x ih =>
    intro hlt hhead
    rw [bytesToNat_append_singleton]
    have hx : x < 256 := hlt x (by simp)
    match hxs : xs with
    | [] =>
      have hx0 : x ≠ 0 := by
        subst hxs
        simp only [List.nil_append, List.head?] at hhead
        intro h; exact hhead (by rw [h])
      rw [natToBytes_eq]
      rw [if_neg (by simpa [bytesToNat] using hx0)]
      simp [bytesToNat, Nat.div_eq_of_lt hx, Nat.mod_eq_of_lt hx, (natToBytes_eq_nil_iff 0).mpr rfl]
    | h :: t =>
      subst hxs
      have hh0 : h ≠ 0 := by
        simp only [List.cons_append, List.head?] at hhead
        intro he; exact hhead (by rw [he])
      have hN : bytesToNat (h :: t) ≠ 0 := bytesToNat_pos_of_head_ne_zero h t hh0
      have hne : bytesToNat (h :: t) * 256 + x ≠ 0 := by
        intro hc
        exact hN (by omega)
      rw [natToBytes_eq, if_neg hne]
      have hdiv : (bytesToNat (h :: t) * 256 + x) / 256 = bytesToNat (h :: t) := by omega
      have hmod : (bytesToNat (h :: t) * 256 + x) % 256 = x := by omega
      rw [hdiv, hmod, ih (fun b hb => hlt b (List.mem_append_left _ hb)) (by simp [hh0])]

/-! ### Decimal round trip -/

theorem digitsVal_append_singleton (cs : List Char) (c : Char) :
    digitsVal (cs ++ [c]) =
      match digitsVal cs, digitVal c with
      | some v, some d => some (v * 10 + d)
      | _, _ => none := by
  induction cs with
  | nil =>
    simp only [List.nil_append, digitsVal]
    rcases hc : digitVal c with _ | d <;> simp
  | cons x xs ih =>
    simp only [List.cons_append, digitsVal, List.append_eq]
    rw [ih]
    rcases hx : digitVal x with _ | d <;> rcases hxs : digitsVal xs with _ | r <;>
      rcases hc : digitVal c with _ | e <;>
      (simp [List.length_append, pow_succ]; try ring)

theorem digitVal_digitChar : ∀ d : Nat, d < 10 → digitVal (digitChar d) = some d := by
  decide

theorem digitsVal_natToDecAux (v : Nat) : digitsVal (natToDecAux v) = some v := by
  induction v using Nat.strong_induction_on with
  | _ v ih =>
    rw [natToDecAux_eq]
    by_cases h : v = 0
    · simp [h, digitsVal]
    · rw [if_neg h, digitsVal_append_singleton,
        ih (v / 10) (Nat.div_lt_self (Nat.pos_of_ne_zero h) (by norm_num)),
        digitVal_digitChar (v % 10) (Nat.mod_lt _ (by norm_num))]
      simp only [Option.some.injEq]
      omega

theorem natToDecAux_eq_nil_iff (v : Nat) : natToDecAux v = [] ↔ v = 0 := by
  constructor
  · intro h
    by_contra hv
    rw [natToDecAux_eq, if_neg hv] at h
    exact absurd h (by simp)
  · intro h; subst h; rfl

theorem digitsVal_natToDecChars (v : Nat) : digitsVal (natToDecChars v) = some v := by
  unfold natToDecChars
  rcases h : natToDecAux v with _ | ⟨c, cs⟩
  · rw [(natToDecAux_eq_nil_iff v).mp h]
    rfl
  · show digitsVal (c :: cs) = some v
    rw [← h]
    exact digitsVal_natToDecAux v

theorem natToDecChars_ne_nil (v : Nat) : natToDecChars v ≠ [] := by
  unfold natToDecChars
  rcases h : natToDecAux v with _ | ⟨c, cs⟩ <;> simp

theorem parseDecimal_natToDecString (v : Nat) : parseDecimal (natToDecString v) = some v := by
  unfold parseDecimal natToDecString
  rcases h : natToDecChars v with _ | ⟨c, cs⟩
  · exact absurd h (natToDecChars_ne_nil v)
  · show digitsVal (c :: cs) = some v
    rw [← h]
    exact digitsVal_natToDecChars v

/-! ## DER encoding of an RSA public key

Modelled from the spec: the `node-forge` routines called by
`rsaJsonToDerBytes` and `derBytesToRsaJson` (`forge.pki.publicKeyToAsn1`,
`forge.asn1.toDer`, `forge.asn1.fromDer`, `forge.pki.publicKeyFromAsn1`)
are library code outside this repository's sources.  The specification
describes the format as "the standard ASN.1 DER encoding for an RSA
public key structure (SEQUENCE of modulus INTEGER and exponent INTEGER)",
with decoding failing on bytes that "are not valid DER or do not describe
an RSA public key (wrong structure, missing fields, trailing data)". -/

/-- DER length octets: short form below 128, otherwise long form with the
minimal big-endian byte string of the length. -/
def derLen (n : Nat) : List Nat :=
  if n < 128 then [n] else (128 + (natToBytes n).length) :: natToBytes n

/-- Contents octets of a DER INTEGER holding a non-negative value:
minimal big-endian bytes, with a leading zero octet when the top bit of
the first byte is set (so the value reads as non-negative). -/
def derIntContents (v : Nat) : List Nat :=
  if v = 0 then [0]
  else if 128 ≤ (natToBytes v).headI then 0 :: natToBytes v else natToBytes v

/-- A complete DER INTEGER: tag `0x02`, length octets, contents octets. -/
def derInt (v : Nat) : List Nat :=
  2 :: (derLen (derIntContents v).length ++ derIntContents v)

/-- The DER encoding of the RSA public key `{n, e}`:
`SEQUENCE { INTEGER n, INTEGER e }` (tag `0x30`). -/
def rsaPublicKeyDer (n e : Nat) : List Nat :=
  48 :: (derLen (derInt n ++ derInt e).length ++ (derInt n ++ derInt e))

/-! ## DER parsing -/

/-- Split off exactly `k` leading elements, or `none` if the input is too
short. -/
def splitAtExact (k : Nat) (bs : List Nat) : Option (List Nat × List Nat) :=
  if k ≤ bs.length then some (bs.take k, bs.drop k) else none

theorem splitAtExact_sound {k : Nat} {bs a b : List Nat}
    (h : splitAtExact k bs = some (a, b)) : bs = a ++ b ∧ a.length = k := by
  unfold splitAtExact at h
  by_cases hk : k ≤ bs.length
  · rw [if_pos hk] at h
    injection h with h
    injection h with h1 h2
    subst h1; subst h2
    exact ⟨(List.take_append_drop k bs).symm, List.length_take_of_le hk⟩
  · rw [if_neg hk] at h
    exact absurd h (by simp)

theorem splitAtExact_append (a b : List Nat) :
    splitAtExact a.length (a ++ b) = some (a, b) := by
  unfold splitAtExact
  rw [if_pos (by simp)]
  rw [List.take_left, List.drop_left]

/-- Parse DER length octets off the front of the input, returning the
length and the remaining bytes.  Strict DER: rejects the indefinite-length
marker, non-minimal long forms, and length bytes that are not bytes. -/
def readLen : List Nat → Except String (Nat × List Nat)
  | [] => .error "Too few bytes to parse DER length."
  | b :: rest =>
    if b < 128 then .ok (b, rest)
    else
      match splitAtExact (b - 128) rest with
      | none => .error "Too few bytes to parse DER long-form length."
      | some (lenBytes, rest2) =>
        match lenBytes with
        | [] => .error "Indefinite length is not valid DER."
        | lb :: _ =>
          if lb = 0 then .error "Non-minimal DER length encoding."
          else if lenBytes.all (fun x => decide (x < 256)) then
            if 128 ≤ bytesToNat lenBytes then .ok (bytesToNat lenBytes, rest2)
            else .error "Non-minimal DER length encoding."
          else .error "DER length byte out of range."

/-- Parsing the length octets written by `derLen` succeeds and returns the
encoded length together with the trailing bytes. -/
theorem readLen_complete (n : Nat) (rest : List Nat) :
    readLen (derLen n ++ rest) = .ok (n, rest) := by
  unfold derLen
  by_cases h : n < 128
  · rw [if_pos h]
    show readLen (n :: rest) = .ok (n, rest)
    simp only [readLen]
    rw [if_pos h]
  · rw [if_neg h]
    have hn0 : n ≠ 0 := by omega
    obtain ⟨hd, tl, hht, hhne⟩ := natToBytes_head n hn0
    show readLen ((128 + (natToBytes n).length) :: (natToBytes n ++ rest)) = .ok (n, rest)
    simp only [readLen]
    rw [if_neg (by omega)]
    have hsub : 128 + (natToBytes n).length - 128 = (natToBytes n).length := by omega
    rw [hsub, splitAtExact_append]
    rw [hht]
    simp only
    rw [if_neg hhne]
    have hall : (hd :: tl).all (fun x => decide (x < 256)) = true := by
      rw [List.all_eq_true]
      intro x hx
      simpa using natToBytes_lt_256 n x (by rw [hht]; exact hx)
    rw [if_pos hall, ← hht, bytesToNat_natToBytes]
    rw [if_pos (by omega)]

/-- Soundness of `readLen`: an accepted parse consumed exactly the DER
length octets of the returned length. -/
theorem readLen_sound {bs rest : List Nat} {n : Nat}
    (h : readLen bs = .ok (n, rest)) : bs = derLen n ++ rest := by
  match bs with
  | [] => exact absurd h (by simp [readLen])
  | b :: bs' =>
    simp only [readLen] at h
    by_cases hb : b < 128
    · rw [if_pos hb] at h
      injection h with h
      injection h with h1 h2
      subst h1; subst h2
      unfold derLen
      rw [if_pos hb]
      rfl
    · rw [if_neg hb] at h
      match hsp : splitAtExact (b - 128) bs' with
      | none => rw [hsp] at h; exact absurd h (by simp)
      | some (lenBytes, rest2) =>
        rw [hsp] at h
        match hlb : lenBytes with
        | [] => exact absurd h (by simp)
        | lb :: lt =>
          simp only at h
          by_cases hz : lb = 0
          · rw [if_pos hz] at h; exact absurd h (by simp)
          · rw [if_neg hz] at h
            by_cases hall : (lb :: lt).all (fun x => decide (x < 256)) = true
            · rw [if_pos hall] at h
              by_cases hge : 128 ≤ bytesToNat (lb :: lt)
              · rw [if_pos hge] at h
                simp only [Except.ok.injEq, Prod.mk.injEq] at h
                obtain ⟨h1, h2⟩ := h
                subst h1; subst h2
                obtain ⟨hbs, hlen⟩ := splitAtExact_sound hsp
                have hrec : natToBytes (bytesToNat (lb :: lt)) = lb :: lt := by
                  apply natToBytes_bytesToNat
                  · intro x hx
                    have := (List.all_eq_true.mp hall) x hx
                    simpa using this
                  · simp [hz]
                unfold derLen
                rw [if_neg (by omega)]
                rw [hrec]
                have hblen : (lb :: lt).length = b - 128 := hlen
                rw [hbs, hblen]
                have : 128 + (b - 128) = b := by omega
                rw [this]
                rfl
              · rw [if_neg hge] at h; exact absurd h (by simp)
            · rw [if_neg hall] at h; exact absurd h (by simp)

/-- Validity of DER INTEGER contents octets for a non-negative value:
non-empty, minimal (no redundant leading zero octet) and non-negative
(top bit of the first meaningful octet clear, or a single leading zero
octet followed by an octet with the top bit set). -/
def intContentsOk : List Nat → Bool
  | [] => false
  | [b] => decide (b < 128)
  | b :: c :: _ => if b = 0 then decide (128 ≤ c) else decide (b < 128)

theorem bytesToNat_derIntContents (v : Nat) : bytesToNat (derIntContents v) = v := by
  unfold derIntContents
  by_cases hv : v = 0
  · rw [if_pos hv, hv]
    rfl
  · rw [if_neg hv]
    by_cases h1 : 128 ≤ (natToBytes v).headI
    · rw [if_pos h1, bytesToNat_cons_zero, bytesToNat_natToBytes]
    · rw [if_neg h1, bytesToNat_natToBytes]

theorem derIntContents_valid (v : Nat) :
    intContentsOk (derIntContents v) = true ∧ ∀ b ∈ derIntContents v, b < 256 := by
  unfold derIntContents
  by_cases hv : v = 0
  · rw [if_pos hv]
    refine ⟨by decide, ?_⟩
    intro b hb
    simp only [List.mem_singleton] at hb
    omega
  · obtain ⟨hd, tl, hht, hne⟩ := natToBytes_head v hv
    rw [if_neg hv, hht]
    have hlt : ∀ b ∈ hd :: tl, b < 256 := by
      intro b hb; exact natToBytes_lt_256 v b (by rw [hht]; exact hb)
    simp only [List.headI]
    by_cases h1 : 128 ≤ hd
    · rw [if_pos h1]
      refine ⟨by simp [intContentsOk, h1], ?_⟩
      intro b hb
      rcases List.mem_cons.mp hb with hb | hb
      · omega
      · exact hlt b hb
    · rw [if_neg h1]
      refine ⟨?_, hlt⟩
      match tl with
      | [] =>
        show intContentsOk [hd] = true
        simp only [intContentsOk, decide_eq_true_eq]
        omega
      | c :: t =>
        show intContentsOk (hd :: c :: t) = true
        simp only [intContentsOk, if_neg hne, decide_eq_true_eq]
        omega

theorem derIntContents_inv (bs : List Nat) (hok : intContentsOk bs = true)
    (hlt : ∀ b ∈ bs, b < 256) : derIntContents (bytesToNat bs) = bs := by
  match bs with
  | [] => exact absurd hok (by simp [intContentsOk])
  | [b] =>
    have hb : b < 128 := by simpa [intContentsOk] using hok
    have hbv : bytesToNat [b] = b := by simp [bytesToNat]
    rw [hbv]
    unfold derIntContents
    by_cases hb0 : b = 0
    · rw [if_pos hb0, hb0]
    · have hnb : natToBytes b = [b] := by
        rw [natToBytes_eq, if_neg hb0, Nat.div_eq_of_lt (by omega),
          Nat.mod_eq_of_lt (by omega), (natToBytes_eq_nil_iff 0).mpr rfl]
        rfl
      rw [if_neg hb0, hnb]
      simp only [List.headI]
      rw [if_neg (by omega)]
  | b :: c :: t =>
    by_cases hb0 : b = 0
    · subst hb0
      have hc : 128 ≤ c := by simpa [intContentsOk] using hok
      rw [bytesToNat_cons_zero]
      have hN : bytesToNat (c :: t) ≠ 0 := bytesToNat_pos_of_head_ne_zero c t (by omega)
      have hrec : natToBytes (bytesToNat (c :: t)) = c :: t := by
        apply natToBytes_bytesToNat
        · intro x hx; exact hlt x (List.mem_cons_of_mem _ hx)
        · simp only [List.head?, ne_eq, Option.some.injEq]
          omega
      unfold derIntContents
      rw [if_neg hN, hrec]
      simp only [List.headI]
      rw [if_pos hc]
    · have hb : b < 128 := by simpa [intContentsOk, hb0] using hok
      have hN : bytesToNat (b :: c :: t) ≠ 0 := bytesToNat_pos_of_head_ne_zero b (c :: t) hb0
      have hrec : natToBytes (bytesToNat (b :: c :: t)) = b :: c :: t := by
        apply natToBytes_bytesToNat
        · exact hlt
        · simp [hb0]
      unfold derIntContents
      rw [if_neg hN, hrec]
      simp only [List.headI]
      rw [if_neg (by omega)]

/-- Parse a DER INTEGER holding a non-negative value off the front of the
input: tag octet `0x02`, strict length octets, validated minimal contents
octets. -/
def readInt : List Nat → Except String (Nat × List Nat)
  | [] => .error "Expected DER INTEGER."
  | t :: rest =>
    if t = 2 then
      match readLen rest with
      | .error m => .error m
      | .ok (len, rest2) =>
        match splitAtExact len rest2 with
        | none => .error "Too few bytes to read INTEGER contents."
        | some (contents, rest3) =>
          if intContentsOk contents && contents.all (fun x => decide (x < 256)) then
            .ok (bytesToNat contents, rest3)
          else .error "Invalid DER INTEGER contents."
    else .error "Expected DER INTEGER."

/-- Parsing the INTEGER written by `derInt` succeeds and returns the
encoded value together with the trailing bytes. -/
theorem readInt_complete (v : Nat) (rest : List Nat) :
    readInt (derInt v ++ rest) = .ok (v, rest) := by
  unfold derInt
  show readInt (2 :: ((derLen (derIntContents v).length ++ derIntContents v) ++ rest)) = _
  simp only [readInt, List.append_assoc]
  rw [if_pos trivial, readLen_complete]
  simp only
  rw [splitAtExact_append]
  simp only
  obtain ⟨hok, hlt⟩ := derIntContents_valid v
  have hall : (derIntContents v).all (fun x => decide (x < 256)) = true := by
    rw [List.all_eq_true]
    intro x hx
    simpa using hlt x hx
  rw [if_pos (by rw [hok, hall]; rfl), bytesToNat_derIntContents]

/-- Soundness of `readInt`: an accepted parse consumed exactly the DER
INTEGER encoding of the returned value. -/
theorem readInt_sound {bs rest : List Nat} {v : Nat}
    (h : readInt bs = .ok (v, rest)) : bs = derInt v ++ rest := by
  match bs with
  | [] => exact absurd h (by simp [readInt])
  | t :: bs' =>
    simp only [readInt] at h
    by_cases ht : t = 2
    · rw [if_pos ht] at h
      match hrl : readLen bs' with
      | .error m => rw [hrl] at h; exact absurd h (by simp)
      | .ok (len, rest2) =>
        rw [hrl] at h
        simp only at h
        match hsp : splitAtExact len rest2 with
        | none => rw [hsp] at h; exact absurd h (by simp)
        | some (contents, rest3) =>
          rw [hsp] at h
          simp only at h
          by_cases hck : (intContentsOk contents && contents.all fun x => decide (x < 256)) = true
          · rw [if_pos hck] at h
            simp only [Except.ok.injEq, Prod.mk.injEq] at h
            obtain ⟨h1, h2⟩ := h
            subst h1; subst h2
            obtain ⟨hok, hall⟩ := Bool.and_eq_true_iff.mp hck
            have hlt : ∀ b ∈ contents, b < 256 := by
              intro b hb
              simpa using (List.all_eq_true.mp hall) b hb
            have hinv : derIntContents (bytesToNat contents) = contents := derIntContents_inv contents hok hlt
            obtain ⟨hbs2, hclen⟩ := splitAtExact_sound hsp
            have hbs' : bs' = derLen len ++ rest2 := readLen_sound hrl
            subst ht
            unfold derInt
            rw [hinv, hclen, hbs', hbs2]
            simp [List.append_assoc]
          · rw [if_neg hck] at h; exact absurd h (by simp)
    · rw [if_neg ht] at h; exact absurd h (by simp)

/-- Parse a DER-encoded RSA public key `SEQUENCE { INTEGER n, INTEGER e }`,
insisting the SEQUENCE contents fill the input exactly (no trailing
data). -/
def rsaDecodeDer : List Nat → Except String (Nat × Nat)
  | [] => .error "Expected DER SEQUENCE."
  | t :: rest =>
    if t = 48 then
      match readLen rest with
      | .error m => .error m
      | .ok (len, rest2) =>
        if rest2.length = len then
          match readInt rest2 with
          | .error m => .error m
          | .ok (n, rest3) =>
            match readInt rest3 with
            | .error m => .error m
            | .ok (e, rest4) =>
              if rest4 = [] then .ok (n, e)
              else .error "Unparsed bytes inside DER SEQUENCE."
        else .error "SEQUENCE length does not match contents."
    else .error "Expected DER SEQUENCE."

/-- Round trip at the DER layer: decoding an encoded RSA public key
returns the encoded pair. -/
theorem rsaDecodeDer_encode (n e : Nat) :
    rsaDecodeDer (rsaPublicKeyDer n e) = .ok (n, e) := by
  unfold rsaPublicKeyDer
  show rsaDecodeDer (48 :: (derLen (derInt n ++ derInt e).length ++ (derInt n ++ derInt e))) = _
  simp only [rsaDecodeDer]
  rw [if_pos trivial, readLen_complete]
  simp only
  rw [if_pos trivial]
  have h1 : derInt n ++ derInt e = derInt n ++ (derInt e ++ []) := by simp
  rw [h1, readInt_complete]
  simp only
  rw [readInt_complete]
  simp only
  rfl

/-- Soundness at the DER layer: an accepted parse means the input was
exactly the DER encoding of the returned pair. -/
theorem rsaDecodeDer_sound {bs : List Nat} {n e : Nat}
    (h : rsaDecodeDer bs = .ok (n, e)) : bs = rsaPublicKeyDer n e := by
  match bs with
  | [] => exact absurd h (by simp [rsaDecodeDer])
  | t :: bs' =>
    simp only [rsaDecodeDer] at h
    by_cases ht : t = 48
    · rw [if_pos ht] at h
      match hrl : readLen bs' with
      | .error m => rw [hrl] at h; exact absurd h (by simp)
      | .ok (len, rest2) =>
        rw [hrl] at h
        simp only at h
        by_cases hlen : rest2.length = len
        · rw [if_pos hlen] at h
          match hi1 : readInt rest2 with
          | .error m => rw [hi1] at h; exact absurd h (by simp)
          | .ok (n1, rest3) =>
            rw [hi1] at h
            simp only at h
            match hi2 : readInt rest3 with
            | .error m => rw [hi2] at h; exact absurd h (by simp)
            | .ok (e1, rest4) =>
              rw [hi2] at h
              simp only at h
              by_cases h4 : rest4 = []
              · rw [if_pos h4] at h
                simp only [Except.ok.injEq, Prod.mk.injEq] at h
                obtain ⟨h1, h2⟩ := h
                subst h1; subst h2
                subst h4
                have hr3 : rest3 = derInt e1 ++ [] := readInt_sound hi2
                rw [List.append_nil] at hr3
                subst hr3
                have hr2 : rest2 = derInt n1 ++ derInt e1 := readInt_sound hi1
                have hbs' : bs' = derLen len ++ rest2 := readLen_sound hrl
                subst ht
                unfold rsaPublicKeyDer
                rw [hbs', hr2, ← hlen, hr2]
              · rw [if_neg h4] at h; exact absurd h (by simp)
        · rw [if_neg hlen] at h; exact absurd h (by simp)
    · rw [if_neg ht] at h; exact absurd h (by simp)

/-! ## JavaScript `parseInt` on decimal digit strings

Modelled from the ECMAScript semantics of the `parseInt` call in
`derBytesToRsaJson` (src/server.js line 36): on an all-digits decimal
string the result is the mathematical integer value converted to an IEEE
double, i.e. the value itself below `2 ^ 53` and the nearest
double-representable integer (round to nearest, ties to even at 53
significant bits) above. -/

/-- Fuel-driven count of halvings until the value fits in 53 bits. -/
def shiftForF : Nat → Nat → Nat
  | 0, _ => 0
  | f + 1, n => if n < 2 ^ 53 then 0 else shiftForF f (n / 2) + 1

/-- Number of halvings needed to bring `n` below `2 ^ 53`. -/
def shiftFor (n : Nat) : Nat := shiftForF n n

/-- Round `n` to a multiple of `2 ^ k`, ties to even quotient. -/
def roundAt (k n : Nat) : Nat :=
  let p := 2 ^ k
  let q := n / p
  let r := n % p
  if 2 * r < p then q * p else if p < 2 * r then (q + 1) * p else (q + q % 2) * p

/-- The double-representable integer nearest to `n` (ties to even):
what JavaScript number arithmetic turns the exact integer `n` into. -/
def roundToDouble (n : Nat) : Nat :=
  if n < 2 ^ 53 then n else roundAt (shiftFor n) n

/-- `parseInt` on a list of decimal digit characters, per the model
above (`0` on a non-digit input, unreachable from the decoder). -/
def jsParseIntDec (cs : List Char) : Nat :=
  match digitsVal cs with
  | some v => roundToDouble v
  | none => 0

theorem roundToDouble_of_lt {n : Nat} (h : n < 2 ^ 53) : roundToDouble n = n :=
  if_pos h

theorem jsParseIntDec_natToDecChars {e : Nat} (h : e < 2 ^ 53) :
    jsParseIntDec (natToDecChars e) = e := by
  unfold jsParseIntDec
  rw [digitsVal_natToDecChars]
  exact roundToDouble_of_lt h

/-! ## The key codec of `src/server.js` -/

/-- The `publicKey` object of a request body: fields `n` and `e` as the
JavaScript values the handler received. -/
structure RsaPub where
  n : JsVal
  e : JsVal
deriving DecidableEq, Repr

/-- The JSON form of a decoded key as built by `derBytesToRsaJson`:
`n` a decimal string, `e` a JavaScript integer. -/
structure RsaJson where
  n : String
  e : Nat
deriving DecidableEq, Repr

/-- `rsaJsonToDerBytes` (src/server.js lines 20-27): stringify the `n`
and `e` fields, read them as arbitrary-precision integers, and DER-encode
the RSA public key.  Modelled from the spec: encoding "fails with an
`EncodingError` if the modulus string is not a valid base-10 integer or
the exponent is not representable as an integer" (the failing calls are
inside `node-forge`, outside this repository's sources). -/
def rsaJsonToDerBytes (jsonKey : RsaPub) : Except String (List Nat) :=
  match parseDecimal jsonKey.n.toJsString, parseDecimal jsonKey.e.toJsString with
  | some n, some e => .ok (rsaPublicKeyDer n e)
  | _, _ => .error "Invalid base-10 integer in RSA public key."

/-- `derBytesToRsaJson` (src/server.js lines 30-38): parse the DER bytes
and return the modulus as its decimal string and the exponent as
`parseInt` of its decimal string. -/
def derBytesToRsaJson (buffer : List Nat) : Except String RsaJson :=
  match rsaDecodeDer buffer with
  | .error m => .error m
  | .ok (n, e) => .ok ⟨natToDecString n, jsParseIntDec (natToDecChars e)⟩

theorem rsaJsonToDerBytes_canonical (n e : Nat) :
    rsaJsonToDerBytes ⟨.str (natToDecString n), .num (Int.ofNat e)⟩ =
      .ok (rsaPublicKeyDer n e) := by
  have h2 : intToDecString (Int.ofNat e) = natToDecString e := by
    unfold intToDecString
    have hnn : ¬ (Int.ofNat e < 0) := Int.not_lt.mpr (Int.ofNat_nonneg e)
    rw [if_neg hnn]
    rfl
  unfold rsaJsonToDerBytes
  simp only [JsVal.toJsString, h2, parseDecimal_natToDecString]

theorem derBytesToRsaJson_encode {n e : Nat} (he : e < 2 ^ 53) :
    derBytesToRsaJson (rsaPublicKeyDer n e) = .ok ⟨natToDecString n, e⟩ := by
  unfold derBytesToRsaJson
  rw [rsaDecodeDer_encode]
  simp only
  rw [jsParseIntDec_natToDecChars he]

/-! ## Hexadecimal strings

`getUser` receives the stored bytes from the contract as a `0x`-prefixed
hex string and converts them back with `Buffer.from(s.slice(2), 'hex')`:
pairs of hex digits become bytes, stopping at the first invalid pair. -/

/-- Lowercase hex digit character for a value below 16. -/
def hexDigitChar (d : Nat) : Char :=
  Char.ofNat (if d < 10 then 48 + d else 87 + d)

/-- Lowercase hex rendering of a byte string, two digits per byte. -/
def bytesToHexChars : List Nat → List Char
  | [] => []
  | b :: bs => hexDigitChar (b / 16) :: hexDigitChar (b % 16) :: bytesToHexChars bs

/-- Value of one hex digit character (either case), `none` otherwise. -/
def hexCharVal (c : Char) : Option Nat :=
  if '0' ≤ c ∧ c ≤ '9' then some (c.toNat - 48)
  else if 'a' ≤ c ∧ c ≤ 'f' then some (c.toNat - 87)
  else if 'A' ≤ c ∧ c ≤ 'F' then some (c.toNat - 55)
  else none

/-- `Buffer.from(_, 'hex')`: consume pairs of hex digits into bytes,
truncating at the first invalid pair or odd leftover character. -/
def hexPairsToBytes : List Char → List Nat
  | c1 :: c2 :: rest =>
    match hexCharVal c1, hexCharVal c2 with
    | some d1, some d2 => (16 * d1 + d2) :: hexPairsToBytes rest
    | _, _ => []
  | _ => []

theorem hexCharVal_hexDigitChar : ∀ d : Nat, d < 16 → hexCharVal (hexDigitChar d) = some d := by
  decide

theorem hexPairsToBytes_bytesToHexChars : ∀ bs : List Nat, (∀ b ∈ bs, b < 256) →
    hexPairsToBytes (bytesToHexChars bs) = bs := by
  intro bs
  induction bs with
  | nil => intro _; rfl
  | cons b t ih =>
    intro hlt
    have hb : b < 256 := hlt b (by simp)
    show hexPairsToBytes (hexDigitChar (b / 16) :: hexDigitChar (b % 16) :: bytesToHexChars t) = b :: t
    simp only [hexPairsToBytes]
    rw [hexCharVal_hexDigitChar (b / 16) (by omega), hexCharVal_hexDigitChar (b % 16) (by omega)]
    simp only
    rw [ih (fun x hx => hlt x (List.mem_cons_of_mem _ hx))]
    have : 16 * (b / 16) + b % 16 = b := by omega
    rw [this]

/-! ## The registry gateway of `src/server.js`

Each handler is a pure function of the request and of an abstract
`Contract` collaborator; it returns the HTTP response together with the
list of contract calls it performed, in order.  A collaborator call that
would throw is modelled as an `Except.error` carrying the error message;
the handler's `catch` turns it into a 500 response with that raw
message. -/

/-- The transaction object returned by a mutating contract call, with the
outcome of `await tx.wait()`. -/
structure TxR where
  hash : String
  waitResult : Except String Unit

/-- The external key-registry contract: the five capabilities the gateway
invokes.  Each operation either returns a value or fails with an error
message. -/
structure Contract where
  isUserRegistered : String → Except String Bool
  getPublicKey : String → Except String String
  setPublicKey : String → List Nat → Except String TxR
  updatePublicKey : String → List Nat → Except String TxR
  deletePublicKey : String → Except String TxR

/-- One observed call to the contract collaborator. -/
inductive CallEv where
  | isReg (userId : String)
  | getKey (userId : String)
  | setKey (userId : String) (bytes : List Nat)
  | updKey (userId : String) (bytes : List Nat)
  | delKey (userId : String)
deriving DecidableEq, Repr

/-- A request body for `registerUser` / `updateUser`: the `userId` field
and the optional `publicKey` object. -/
structure ReqBody where
  userId : JsVal
  publicKey : Option RsaPub
deriving DecidableEq, Repr

/-- The JSON body of a gateway response. -/
inductive RespBody where
  | errorB (error : String)
  | okRegister (message txHash : String)
  | okFetch (userId : String) (publicKey : RsaJson)
  | okUpdate (message txHash : String)
  | okDelete (message : String)
deriving DecidableEq, Repr

/-- An HTTP response: status code and JSON body. -/
structure Resp where
  status : Nat
  body : RespBody
deriving DecidableEq, Repr

/-- `POST /registerUser` (src/server.js lines 72-94). -/
def registerUser (c : Contract) (b : ReqBody) : Resp × List CallEv :=
  let uid := b.userId.toJsString
  match b.publicKey with
  | none => (⟨400, .errorB "userId and publicKey are required"⟩, [])
  | some pk =>
    if truthy b.userId && truthy pk.n && truthy pk.e then
      match rsaJsonToDerBytes pk with
      | .error m => (⟨500, .errorB m⟩, [])
      | .ok publicKeyBytes =>
        match c.isUserRegistered uid with
        | .error m => (⟨500, .errorB m⟩, [.isReg uid])
        | .ok true => (⟨400, .errorB "User ID is already registered"⟩, [.isReg uid])
        | .ok false =>
          match c.setPublicKey uid publicKeyBytes with
          | .error m => (⟨500, .errorB m⟩, [.isReg uid, .setKey uid publicKeyBytes])
          | .ok tx =>
            match tx.waitResult with
            | .error m => (⟨500, .errorB m⟩, [.isReg uid, .setKey uid publicKeyBytes])
            | .ok _ =>
              (⟨200, .okRegister "User registered successfully" tx.hash⟩,
                [.isReg uid, .setKey uid publicKeyBytes])
    else (⟨400, .errorB "userId and publicKey are required"⟩, [])

/-- `GET /getUser/:userId` (src/server.js lines 116-132). -/
def getUser (c : Contract) (userId : String) : Resp × List CallEv :=
  match c.isUserRegistered userId with
  | .error m => (⟨500, .errorB m⟩, [.isReg userId])
  | .ok false => (⟨404, .errorB "User not registered"⟩, [.isReg userId])
  | .ok true =>
    match c.getPublicKey userId with
    | .error m => (⟨500, .errorB m⟩, [.isReg userId, .getKey userId])
    | .ok hexString =>
      let buffer := hexPairsToBytes (hexString.data.drop 2)
      match derBytesToRsaJson buffer with
      | .error m => (⟨500, .errorB m⟩, [.isReg userId, .getKey userId])
      | .ok jsonKey =>
        (⟨200, .okFetch userId jsonKey⟩, [.isReg userId, .getKey userId])

/-- `POST /updateUser` (src/server.js lines 168-189). -/
def updateUser (c : Contract) (b : ReqBody) : Resp × List CallEv :=
  let uid := b.userId.toJsString
  match b.publicKey with
  | none => (⟨400, .errorB "userId and publicKey are required"⟩, [])
  | some pk =>
    if truthy b.userId && truthy pk.n && truthy pk.e then
      match c.isUserRegistered uid with
      | .error m => (⟨500, .errorB m⟩, [.isReg uid])
      | .ok false => (⟨404, .errorB "User not Registered"⟩, [.isReg uid])
      | .ok true =>
        match rsaJsonToDerBytes pk with
        | .error m => (⟨500, .errorB m⟩, [.isReg uid])
        | .ok publicKeyBytes =>
          match c.updatePublicKey uid publicKeyBytes with
          | .error m => (⟨500, .errorB m⟩, [.isReg uid, .updKey uid publicKeyBytes])
          | .ok tx =>
            match tx.waitResult with
            | .error m => (⟨500, .errorB m⟩, [.isReg uid, .updKey uid publicKeyBytes])
            | .ok _ =>
              (⟨200, .okUpdate ("Public Key updated for User ID: " ++ uid) tx.hash⟩,
                [.isReg uid, .updKey uid publicKeyBytes])
    else (⟨400, .errorB "userId and publicKey are required"⟩, [])

/-- `DELETE /deleteUser/:userId` (src/server.js lines 211-227). -/
def deleteUser (c : Contract) (userId : String) : Resp × List CallEv :=
  match c.isUserRegistered userId with
  | .error m => (⟨500, .errorB m⟩, [.isReg userId])
  | .ok false => (⟨404, .errorB "User not Registered"⟩, [.isReg userId])
  | .ok true =>
    match c.deletePublicKey userId with
    | .error m => (⟨500, .errorB m⟩, [.isReg userId, .delKey userId])
    | .ok tx =>
      match tx.waitResult with
      | .error m => (⟨500, .errorB m⟩, [.isReg userId, .delKey userId])
      | .ok _ =>
        (⟨200, .okDelete ("User with User ID: " ++ userId ++ " deleted successfully")⟩,
          [.isReg userId, .delKey userId])

/-- A well-behaved registry holding the finite store `st`: registration
means presence in the store, and `getPublicKey` returns the stored bytes
as a `0x`-prefixed lowercase hex string, as the on-chain client does. -/
def honestContract (st : List (String × List Nat)) : Contract :=
  { isUserRegistered := fun uid => .ok (st.lookup uid).isSome
    getPublicKey := fun uid =>
      match st.lookup uid with
      | some bs => .ok (String.mk ('0' :: 'x' :: bytesToHexChars bs))
      | none => .error "no key stored"
    setPublicKey := fun _ _ => .ok ⟨"0xsettx", .ok ()⟩
    updatePublicKey := fun _ _ => .ok ⟨"0xupdtx", .ok ()⟩
    deletePublicKey := fun _ => .ok ⟨"0xdeltx", .ok ()⟩ }

/-! ## Contracts used by the claim witnesses and counterexamples -/

/-- A registry that reports every id as already registered. -/
def alwaysRegistered : Contract :=
  { isUserRegistered := fun _ => .ok true
    getPublicKey := fun _ => .error "no key stored"
    setPublicKey := fun _ _ => .ok ⟨"0xsettx", .ok ()⟩
    updatePublicKey := fun _ _ => .ok ⟨"0xupdtx", .ok ()⟩
    deletePublicKey := fun _ => .ok ⟨"0xdeltx", .ok ()⟩ }

/-- A registry that reports every id as unregistered. -/
def neverRegistered : Contract :=
  { isUserRegistered := fun _ => .ok false
    getPublicKey := fun _ => .error "no key stored"
    setPublicKey := fun _ _ => .ok ⟨"0xsettx", .ok ()⟩
    updatePublicKey := fun _ _ => .ok ⟨"0xupdtx", .ok ()⟩
    deletePublicKey := fun _ => .ok ⟨"0xdeltx", .ok ()⟩ }

/-- A registry whose every call fails. -/
def failingContract : Contract :=
  { isUserRegistered := fun _ => .error "boom"
    getPublicKey := fun _ => .error "boom"
    setPublicKey := fun _ _ => .error "boom"
    updatePublicKey := fun _ _ => .error "boom"
    deletePublicKey := fun _ => .error "boom" }

/-- A registry that accepts every mutating call but whose transaction
confirmation (`await tx.wait()`) fails. -/
def confirmFailContract : Contract :=
  { isUserRegistered := fun _ => .ok true
    getPublicKey := fun _ => .error "no key stored"
    setPublicKey := fun _ _ => .ok ⟨"0xsettx", .error "confirmation failed"⟩
    updatePublicKey := fun _ _ => .ok ⟨"0xupdtx", .error "confirmation failed"⟩
    deletePublicKey := fun _ => .ok ⟨"0xdeltx", .error "confirmation failed"⟩ }

/-! ## Claims -/

/-- Claim C1, as frozen, is refuted at a concrete valid pair: encoding the
modulus "5" with exponent 9007199254740993 = 2 ^ 53 + 1 succeeds, but
decoding the produced bytes returns exponent 9007199254740992, because
`derBytesToRsaJson` passes the exponent through `parseInt`.  The modulus
round-trips; the exponent does not. -/
theorem c1_roundtrip_counterexample :
    rsaJsonToDerBytes ⟨.str "5", .str "9007199254740993"⟩ =
      .ok (rsaPublicKeyDer 5 9007199254740993) ∧
    derBytesToRsaJson (rsaPublicKeyDer 5 9007199254740993) =
      .ok ⟨"5", 9007199254740992⟩ ∧
    (9007199254740992 : Nat) ≠ 9007199254740993 :=
  ⟨rfl, rfl, by decide⟩

/-- Claim C1 (amended): for every valid pair of a canonical decimal
modulus string and an exponent integer below `2 ^ 53`, decoding the bytes
produced by encoding yields the same modulus (canonically formatted, no
leading-zero discrepancy) and the same exponent integer. -/
theorem c1_roundtrip (n e : Nat) (he : e < 2 ^ 53) :
    rsaJsonToDerBytes ⟨.str (natToDecString n), .num (Int.ofNat e)⟩ =
      .ok (rsaPublicKeyDer n e) ∧
    derBytesToRsaJson (rsaPublicKeyDer n e) = .ok ⟨natToDecString n, e⟩ :=
  ⟨rsaJsonToDerBytes_canonical n e, derBytesToRsaJson_encode he⟩

/-- Witness for C1 at the key (n = 123, e = 65537). -/
theorem c1_roundtrip_witness :
    rsaJsonToDerBytes ⟨.str (natToDecString 123), .num (Int.ofNat 65537)⟩ =
      .ok (rsaPublicKeyDer 123 65537) ∧
    derBytesToRsaJson (rsaPublicKeyDer 123 65537) = .ok ⟨natToDecString 123, 65537⟩ :=
  c1_roundtrip 123 65537 (by decide)

/-- Claim C2: on every byte sequence, `derBytesToRsaJson` either fails
with a decoding error (the only failure mode its `Except` result admits)
or the input was exactly the DER encoding of an RSA public key, in which
case that key is returned in full — never an unrelated error, never a
partial result, never acceptance of trailing or malformed data. -/
theorem c2_decode_total_sound (bs : List Nat) :
    (∃ m, derBytesToRsaJson bs = .error m) ∨
    (∃ n e, bs = rsaPublicKeyDer n e ∧
      derBytesToRsaJson bs = .ok ⟨natToDecString n, jsParseIntDec (natToDecChars e)⟩) := by
  match h : rsaDecodeDer bs with
  | .error m =>
    left
    exact ⟨m, by unfold derBytesToRsaJson; rw [h]⟩
  | .ok (n, e) =>
    right
    exact ⟨n, e, rsaDecodeDer_sound h, by unfold derBytesToRsaJson; rw [h]⟩

/-- Witness for C2 at the invalid input [1, 2, 3]. -/
theorem c2_decode_total_sound_witness :
    (∃ m, derBytesToRsaJson [1, 2, 3] = .error m) ∨
    (∃ n e, [1, 2, 3] = rsaPublicKeyDer n e ∧
      derBytesToRsaJson [1, 2, 3] = .ok ⟨natToDecString n, jsParseIntDec (natToDecChars e)⟩) :=
  c2_decode_total_sound [1, 2, 3]

/-- Claim C3, as frozen, is refuted: the key (n = "5",
e = 9007199254740993 = 2 ^ 53 + 1) encodes successfully, so Register can
write its bytes for "alice" — yet fetching "alice" from a registry
holding exactly those bytes returns 200 with exponent 9007199254740992:
the decoded key is not equal to the key most recently written, because
`derBytesToRsaJson` passes the exponent through `parseInt`. -/
theorem c3_fetch_counterexample :
    rsaJsonToDerBytes ⟨.str "5", .str "9007199254740993"⟩ =
      .ok (rsaPublicKeyDer 5 9007199254740993) ∧
    getUser (honestContract [("alice", rsaPublicKeyDer 5 9007199254740993)]) "alice" =
      (⟨200, .okFetch "alice" ⟨"5", 9007199254740992⟩⟩,
        [.isReg "alice", .getKey "alice"]) ∧
    (9007199254740992 : Nat) ≠ 9007199254740993 :=
  ⟨rfl, rfl, by decide⟩

/-- Claim C3 (amended): fetching a registered user whose stored bytes are
the encoding most recently written for it (Register and Update both write
`rsaJsonToDerBytes` output) returns 200 with the decoded key equal to the
written one — the same modulus, canonically formatted, and the same
exponent — provided the exponent is below `2 ^ 53` (beyond that `parseInt`
loses precision, the C3 counterexample).  The stored DER octets are
genuine bytes (below 256). -/
theorem c3_fetch_returns_stored (st : List (String × List Nat)) (uid : String) (n e : Nat)
    (he : e < 2 ^ 53)
    (hbytes : ∀ b ∈ rsaPublicKeyDer n e, b < 256)
    (hst : st.lookup uid = some (rsaPublicKeyDer n e)) :
    getUser (honestContract st) uid =
      (⟨200, .okFetch uid ⟨natToDecString n, e⟩⟩, [.isReg uid, .getKey uid]) := by
  have hreg : (honestContract st).isUserRegistered uid = .ok true := by
    unfold honestContract
    simp only [hst, Option.isSome]
  have hget : (honestContract st).getPublicKey uid =
      .ok (String.mk ('0' :: 'x' :: bytesToHexChars (rsaPublicKeyDer n e))) := by
    unfold honestContract
    simp only [hst]
  have hbuf : hexPairsToBytes
      ((String.mk ('0' :: 'x' :: bytesToHexChars (rsaPublicKeyDer n e))).data.drop 2) =
      rsaPublicKeyDer n e := by
    show hexPairsToBytes (bytesToHexChars (rsaPublicKeyDer n e)) = rsaPublicKeyDer n e
    exact hexPairsToBytes_bytesToHexChars _ hbytes
  unfold getUser
  rw [hreg]
  simp only
  rw [hget]
  simp only
  rw [hbuf, derBytesToRsaJson_encode he]

/-- Witness for C3: a store holding the key (n = 123, e = 65537) for
"alice". -/
theorem c3_fetch_returns_stored_witness :
    getUser (honestContract [("alice", rsaPublicKeyDer 123 65537)]) "alice" =
      (⟨200, .okFetch "alice" ⟨natToDecString 123, 65537⟩⟩,
        [.isReg "alice", .getKey "alice"]) :=
  c3_fetch_returns_stored [("alice", rsaPublicKeyDer 123 65537)] "alice" 123 65537
    (by decide) (by decide) rfl

/-- Claim C4: a Register request missing `userId`, the `publicKey`
object, `publicKey.n` or `publicKey.e` is answered 400 with the static
message and no contract call at all is made. -/
theorem c4_register_missing_fields (c : Contract) (b : ReqBody)
    (h : b.userId = .undef ∨ b.publicKey = none ∨
      ∃ pk, b.publicKey = some pk ∧ (pk.n = .undef ∨ pk.e = .undef)) :
    registerUser c b = (⟨400, .errorB "userId and publicKey are required"⟩, []) := by
  obtain ⟨uid, opk⟩ := b
  rcases h with h | h | ⟨pk, hpk, hne⟩
  · simp only at h
    subst h
    unfold registerUser
    cases opk with
    | none => rfl
    | some pk => simp [truthy]
  · simp only at h
    subst h
    rfl
  · simp only at hpk
    subst hpk
    obtain ⟨pn, pe⟩ := pk
    unfold registerUser
    rcases hne with hne | hne <;> simp only at hne <;> subst hne <;> simp [truthy]

/-- Witness for C4: a body with no `publicKey` object. -/
theorem c4_register_missing_fields_witness :
    registerUser (honestContract []) ⟨.str "alice", none⟩ =
      (⟨400, .errorB "userId and publicKey are required"⟩, []) :=
  c4_register_missing_fields (honestContract []) ⟨.str "alice", none⟩ (Or.inr (Or.inl rfl))

/-- Claim C5, as frozen, is refuted: on a registered id, a Register
request whose key does not encode (modulus string "xyz") is answered 500,
not 400, because the handler encodes the key before the existence check.
No write call is made, but the claimed status is wrong. -/
theorem c5_register_registered_counterexample :
    alwaysRegistered.isUserRegistered "alice" = .ok true ∧
    registerUser alwaysRegistered ⟨.str "alice", some ⟨.str "xyz", .num 65537⟩⟩ =
      (⟨500, .errorB "Invalid base-10 integer in RSA public key."⟩, []) ∧
    (500 : Nat) ≠ 400 :=
  ⟨rfl, rfl, by decide⟩

/-- Claim C5 (amended): for every Register request that passes field
validation and whose key encodes successfully, if the collaborator
reports the id as registered the handler returns 400 "already registered"
and performs no write — the call log holds the existence check only,
`setPublicKey` is never invoked. -/
theorem c5_register_already_registered (c : Contract) (b : ReqBody) (pk : RsaPub)
    (bytes : List Nat)
    (hpk : b.publicKey = some pk)
    (h1 : truthy b.userId = true) (h2 : truthy pk.n = true) (h3 : truthy pk.e = true)
    (henc : rsaJsonToDerBytes pk = .ok bytes)
    (hreg : c.isUserRegistered b.userId.toJsString = .ok true) :
    registerUser c b =
      (⟨400, .errorB "User ID is already registered"⟩, [.isReg b.userId.toJsString]) := by
  obtain ⟨uid, opk⟩ := b
  simp only at hpk h1 hreg
  subst hpk
  unfold registerUser
  simp only [h1, h2, h3, Bool.and_self, if_true, henc, hreg]

/-- Witness for C5 at a well-formed request on a registered id. -/
theorem c5_register_already_registered_witness :
    registerUser alwaysRegistered ⟨.str "alice", some ⟨.str "123", .num 65537⟩⟩ =
      (⟨400, .errorB "User ID is already registered"⟩, [.isReg "alice"]) :=
  c5_register_already_registered alwaysRegistered
    ⟨.str "alice", some ⟨.str "123", .num 65537⟩⟩ ⟨.str "123", .num 65537⟩
    (rsaPublicKeyDer 123 65537) rfl rfl rfl rfl rfl rfl

/-- Claim C6, as frozen, is refuted: an Update request on an unregistered
id that is missing `publicKey.e` is answered 400 (missing fields), not
404, because field validation runs before the existence check.  No write
call is made, but the claimed status is wrong. -/
theorem c6_update_unregistered_counterexample :
    neverRegistered.isUserRegistered "bob" = .ok false ∧
    updateUser neverRegistered ⟨.str "bob", some ⟨.str "5", .undef⟩⟩ =
      (⟨400, .errorB "userId and publicKey are required"⟩, []) ∧
    (400 : Nat) ≠ 404 :=
  ⟨rfl, rfl, by decide⟩

/-- Claim C6 (amended): for every Update request that passes field
validation, if the collaborator reports the id as unregistered the
handler returns 404 and performs no write — the call log holds the
existence check only, `updatePublicKey` is never invoked. -/
theorem c6_update_unregistered (c : Contract) (b : ReqBody) (pk : RsaPub)
    (hpk : b.publicKey = some pk)
    (h1 : truthy b.userId = true) (h2 : truthy pk.n = true) (h3 : truthy pk.e = true)
    (hreg : c.isUserRegistered b.userId.toJsString = .ok false) :
    updateUser c b =
      (⟨404, .errorB "User not Registered"⟩, [.isReg b.userId.toJsString]) := by
  obtain ⟨uid, opk⟩ := b
  simp only at hpk h1 hreg
  subst hpk
  unfold updateUser
  simp only [h1, h2, h3, Bool.and_self, if_true, hreg]

/-- Witness for C6 at a well-formed request on an unregistered id. -/
theorem c6_update_unregistered_witness :
    updateUser neverRegistered ⟨.str "bob", some ⟨.str "123", .num 65537⟩⟩ =
      (⟨404, .errorB "User not Registered"⟩, [.isReg "bob"]) :=
  c6_update_unregistered neverRegistered ⟨.str "bob", some ⟨.str "123", .num 65537⟩⟩
    ⟨.str "123", .num 65537⟩ rfl rfl rfl rfl rfl

/-- Claim C7: on every operation, a failure raised by the registry
collaborator (or by awaiting its confirmation) is surfaced as HTTP 500
with body `{error: m}` where `m` is the raw underlying message — and the
call log shows the failing call was made exactly once, with no retry and
no other calls after it.  One conjunct per failing call site:
Register's existence check, write and write confirmation; Fetch's
existence check and read; Update's existence check, write and write
confirmation; Delete's existence check, delete and delete
confirmation. -/
theorem c7_collaborator_error_surfaces_500 :
    (∀ (c : Contract) (b : ReqBody) (pk : RsaPub) (bytes : List Nat) (m : String),
      b.publicKey = some pk → truthy b.userId = true → truthy pk.n = true →
      truthy pk.e = true → rsaJsonToDerBytes pk = .ok bytes →
      c.isUserRegistered b.userId.toJsString = .error m →
      registerUser c b = (⟨500, .errorB m⟩, [.isReg b.userId.toJsString])) ∧
    (∀ (c : Contract) (b : ReqBody) (pk : RsaPub) (bytes : List Nat) (m : String),
      b.publicKey = some pk → truthy b.userId = true → truthy pk.n = true →
      truthy pk.e = true → rsaJsonToDerBytes pk = .ok bytes →
      c.isUserRegistered b.userId.toJsString = .ok false →
      c.setPublicKey b.userId.toJsString bytes = .error m →
      registerUser c b = (⟨500, .errorB m⟩,
        [.isReg b.userId.toJsString, .setKey b.userId.toJsString bytes])) ∧
    (∀ (c : Contract) (b : ReqBody) (pk : RsaPub) (bytes : List Nat) (tx : TxR) (m : String),
      b.publicKey = some pk → truthy b.userId = true → truthy pk.n = true →
      truthy pk.e = true → rsaJsonToDerBytes pk = .ok bytes →
      c.isUserRegistered b.userId.toJsString = .ok false →
      c.setPublicKey b.userId.toJsString bytes = .ok tx → tx.waitResult = .error m →
      registerUser c b = (⟨500, .errorB m⟩,
        [.isReg b.userId.toJsString, .setKey b.userId.toJsString bytes])) ∧
    (∀ (c : Contract) (uid : String) (m : String),
      c.isUserRegistered uid = .error m →
      getUser c uid = (⟨500, .errorB m⟩, [.isReg uid])) ∧
    (∀ (c : Contract) (uid : String) (m : String),
      c.isUserRegistered uid = .ok true → c.getPublicKey uid = .error m →
      getUser c uid = (⟨500, .errorB m⟩, [.isReg uid, .getKey uid])) ∧
    (∀ (c : Contract) (b : ReqBody) (pk : RsaPub) (m : String),
      b.publicKey = some pk → truthy b.userId = true → truthy pk.n = true →
      truthy pk.e = true →
      c.isUserRegistered b.userId.toJsString = .error m →
      updateUser c b = (⟨500, .errorB m⟩, [.isReg b.userId.toJsString])) ∧
    (∀ (c : Contract) (b : ReqBody) (pk : RsaPub) (bytes : List Nat) (m : String),
      b.publicKey = some pk → truthy b.userId = true → truthy pk.n = true →
      truthy pk.e = true →
      c.isUserRegistered b.userId.toJsString = .ok true →
      rsaJsonToDerBytes pk = .ok bytes →
      c.updatePublicKey b.userId.toJsString bytes = .error m →
      updateUser c b = (⟨500, .errorB m⟩,
        [.isReg b.userId.toJsString, .updKey b.userId.toJsString bytes])) ∧
    (∀ (c : Contract) (b : ReqBody) (pk : RsaPub) (bytes : List Nat) (tx : TxR) (m : String),
      b.publicKey = some pk → truthy b.userId = true → truthy pk.n = true →
      truthy pk.e = true →
      c.isUserRegistered b.userId.toJsString = .ok true →
      rsaJsonToDerBytes pk = .ok bytes →
      c.updatePublicKey b.userId.toJsString bytes = .ok tx → tx.waitResult = .error m →
      updateUser c b = (⟨500, .errorB m⟩,
        [.isReg b.userId.toJsString, .updKey b.userId.toJsString bytes])) ∧
    (∀ (c : Contract) (uid : String) (m : String),
      c.isUserRegistered uid = .error m →
      deleteUser c uid = (⟨500, .errorB m⟩, [.isReg uid])) ∧
    (∀ (c : Contract) (uid : String) (m : String),
      c.isUserRegistered uid = .ok true → c.deletePublicKey uid = .error m →
      deleteUser c uid = (⟨500, .errorB m⟩, [.isReg uid, .delKey uid])) ∧
    (∀ (c : Contract) (uid : String) (tx : TxR) (m : String),
      c.isUserRegistered uid = .ok true → c.deletePublicKey uid = .ok tx →
      tx.waitResult = .error m →
      deleteUser c uid = (⟨500, .errorB m⟩, [.isReg uid, .delKey uid])) := by
  refine ⟨?_, ?_, ?_, ?_, ?_, ?_, ?_, ?_, ?_, ?_, ?_⟩
  · intro c b pk bytes m hpk h1 h2 h3 henc hreg
    obtain ⟨uid, opk⟩ := b
    simp only at hpk h1 hreg ⊢
    subst hpk
    unfold registerUser
    simp only [h1, h2, h3, Bool.and_self, if_true, henc, hreg]
  · intro c b pk bytes m hpk h1 h2 h3 henc hreg hset
    obtain ⟨uid, opk⟩ := b
    simp only at hpk h1 hreg hset ⊢
    subst hpk
    unfold registerUser
    simp only [h1, h2, h3, Bool.and_self, if_true, henc, hreg, hset]
  · intro c b pk bytes tx m hpk h1 h2 h3 henc hreg hset hwait
    obtain ⟨uid, opk⟩ := b
    simp only at hpk h1 hreg hset ⊢
    subst hpk
    unfold registerUser
    simp only [h1, h2, h3, Bool.and_self, if_true, henc, hreg, hset, hwait]
  · intro c uid m hreg
    unfold getUser
    simp only [hreg]
  · intro c uid m hreg hget
    unfold getUser
    simp only [hreg, hget]
  · intro c b pk m hpk h1 h2 h3 hreg
    obtain ⟨uid, opk⟩ := b
    simp only at hpk h1 hreg ⊢
    subst hpk
    unfold updateUser
    simp only [h1, h2, h3, Bool.and_self, if_true, hreg]
  · intro c b pk bytes m hpk h1 h2 h3 hreg henc hupd
    obtain ⟨uid, opk⟩ := b
    simp only at hpk h1 hreg hupd ⊢
    subst hpk
    unfold updateUser
    simp only [h1, h2, h3, Bool.and_self, if_true, hreg, henc, hupd]
  · intro c b pk bytes tx m hpk h1 h2 h3 hreg henc hupd hwait
    obtain ⟨uid, opk⟩ := b
    simp only at hpk h1 hreg hupd ⊢
    subst hpk
    unfold updateUser
    simp only [h1, h2, h3, Bool.and_self, if_true, hreg, henc, hupd, hwait]
  · intro c uid m hreg
    unfold deleteUser
    simp only [hreg]
  · intro c uid m hreg hdel
    unfold deleteUser
    simp only [hreg, hdel]
  · intro c uid tx m hreg hdel hwait
    unfold deleteUser
    simp only [hreg, hdel, hwait]

/-- Witness for C7: the always-failing registry makes Fetch and Delete
answer 500 with the raw message "boom" after the single failed call, and
the confirmation-failing registry makes Update and Delete answer 500 with
the raw confirmation message after the single attempted write. -/
theorem c7_collaborator_error_surfaces_500_witness :
    getUser failingContract "u" = (⟨500, .errorB "boom"⟩, [.isReg "u"]) ∧
    deleteUser failingContract "u" = (⟨500, .errorB "boom"⟩, [.isReg "u"]) ∧
    updateUser confirmFailContract ⟨.str "u", some ⟨.str "123", .num 65537⟩⟩ =
      (⟨500, .errorB "confirmation failed"⟩,
        [.isReg "u", .updKey "u" (rsaPublicKeyDer 123 65537)]) ∧
    deleteUser confirmFailContract "u" =
      (⟨500, .errorB "confirmation failed"⟩, [.isReg "u", .delKey "u"]) := by
  obtain ⟨h1, h2, h3, h4, h5, h6, h7, h8, h9, h10, h11⟩ :=
    c7_collaborator_error_surfaces_500
  exact ⟨h4 failingContract "u" "boom" rfl,
    h9 failingContract "u" "boom" rfl,
    h8 confirmFailContract ⟨.str "u", some ⟨.str "123", .num 65537⟩⟩
      ⟨.str "123", .num 65537⟩ (rsaPublicKeyDer 123 65537) ⟨"0xupdtx", .error "confirmation failed"⟩
      "confirmation failed" rfl rfl rfl rfl rfl rfl rfl rfl,
    h11 confirmFailContract "u" ⟨"0xdeltx", .error "confirmation failed"⟩
      "confirmation failed" rfl rfl rfl⟩

/-- Claim C8: the field-presence check tests JavaScript truthiness, not
presence — with every collaborator, a request whose `publicKey.e` is the
number 0, or whose `userId` or `publicKey.n` is the empty string, is
answered 400 "userId and publicKey are required" by both Register and
Update even though every required field is present in the body, and no
contract call is made. -/
theorem c8_truthiness_validation (c : Contract) :
    registerUser c ⟨.str "alice", some ⟨.str "123", .num 0⟩⟩ =
      (⟨400, .errorB "userId and publicKey are required"⟩, []) ∧
    updateUser c ⟨.str "alice", some ⟨.str "123", .num 0⟩⟩ =
      (⟨400, .errorB "userId and publicKey are required"⟩, []) ∧
    registerUser c ⟨.str "", some ⟨.str "123", .num 65537⟩⟩ =
      (⟨400, .errorB "userId and publicKey are required"⟩, []) ∧
    updateUser c ⟨.str "", some ⟨.str "123", .num 65537⟩⟩ =
      (⟨400, .errorB "userId and publicKey are required"⟩, []) ∧
    registerUser c ⟨.str "alice", some ⟨.str "", .num 65537⟩⟩ =
      (⟨400, .errorB "userId and publicKey are required"⟩, []) ∧
    updateUser c ⟨.str "alice", some ⟨.str "", .num 65537⟩⟩ =
      (⟨400, .errorB "userId and publicKey are required"⟩, []) :=
  ⟨rfl, rfl, rfl, rfl, rfl, rfl⟩

/-- Witness for C8 at a concrete collaborator. -/
theorem c8_truthiness_validation_witness :
    registerUser (honestContract []) ⟨.str "alice", some ⟨.str "123", .num 0⟩⟩ =
      (⟨400, .errorB "userId and publicKey are required"⟩, []) :=
  (c8_truthiness_validation (honestContract [])).1

/-- Claim C9: Register encodes the submitted key before the
registration-existence check, so a well-formed request with an
unencodable key is answered 500 with no collaborator call at all, even
when the collaborator would report the id as registered; Update checks
registration first, so on an unregistered id it answers 404 after the
existence check alone, never touching the key. -/
theorem c9_register_encode_precedes_check :
    (∀ (c : Contract) (b : ReqBody) (pk : RsaPub) (m : String),
      b.publicKey = some pk → truthy b.userId = true → truthy pk.n = true →
      truthy pk.e = true → rsaJsonToDerBytes pk = .error m →
      c.isUserRegistered b.userId.toJsString = .ok true →
      registerUser c b = (⟨500, .errorB m⟩, [])) ∧
    (∀ (c : Contract) (b : ReqBody) (pk : RsaPub),
      b.publicKey = some pk → truthy b.userId = true → truthy pk.n = true →
      truthy pk.e = true →
      c.isUserRegistered b.userId.toJsString = .ok false →
      updateUser c b = (⟨404, .errorB "User not Registered"⟩, [.isReg b.userId.toJsString])) := by
  constructor
  · intro c b pk m hpk h1 h2 h3 henc _
    obtain ⟨uid, opk⟩ := b
    simp only at hpk h1 ⊢
    subst hpk
    unfold registerUser
    simp only [h1, h2, h3, Bool.and_self, if_true, henc]
  · intro c b pk hpk h1 h2 h3 hreg
    obtain ⟨uid, opk⟩ := b
    simp only at hpk h1 hreg ⊢
    subst hpk
    unfold updateUser
    simp only [h1, h2, h3, Bool.and_self, if_true, hreg]

/-- Witness for C9: the same unencodable key (modulus "xyz") sent to
Register on a registered id yields 500 with no calls, and to Update on an
unregistered id yields 404 after the existence check alone. -/
theorem c9_register_encode_precedes_check_witness :
    registerUser alwaysRegistered ⟨.str "bob", some ⟨.str "xyz", .num 65537⟩⟩ =
      (⟨500, .errorB "Invalid base-10 integer in RSA public key."⟩, []) ∧
    updateUser neverRegistered ⟨.str "bob", some ⟨.str "xyz", .num 65537⟩⟩ =
      (⟨404, .errorB "User not Registered"⟩, [.isReg "bob"]) :=
  ⟨c9_register_encode_precedes_check.1 alwaysRegistered
      ⟨.str "bob", some ⟨.str "xyz", .num 65537⟩⟩ ⟨.str "xyz", .num 65537⟩
      "Invalid base-10 integer in RSA public key." rfl rfl rfl rfl rfl rfl,
    c9_register_encode_precedes_check.2 neverRegistered
      ⟨.str "bob", some ⟨.str "xyz", .num 65537⟩⟩ ⟨.str "xyz", .num 65537⟩
      rfl rfl rfl rfl rfl⟩

/-- Claim C10: decode passes the exponent's decimal string through
`parseInt`, so the returned exponent is exact exactly on the safe-integer
range: for every encoded exponent below `2 ^ 53` decoding returns it
unchanged, while at the encoded exponent `2 ^ 53 + 1` decoding returns
`2 ^ 53`, a different integer. -/
theorem c10_parseInt_exponent :
    (∀ n e : Nat, e < 2 ^ 53 →
      derBytesToRsaJson (rsaPublicKeyDer n e) = .ok ⟨natToDecString n, e⟩) ∧
    derBytesToRsaJson (rsaPublicKeyDer 5 (2 ^ 53 + 1)) =
      .ok ⟨natToDecString 5, 2 ^ 53⟩ ∧
    (2 ^ 53 : Nat) ≠ 2 ^ 53 + 1 := by
  refine ⟨fun n e he => derBytesToRsaJson_encode he, by rfl, by decide⟩

/-- Witness for C10 at the in-range exponent 65537. -/
theorem c10_parseInt_exponent_witness :
    derBytesToRsaJson (rsaPublicKeyDer 5 65537) = .ok ⟨natToDecString 5, 65537⟩ :=
  c10_parseInt_exponent.1 5 65537 (by decide)

end KeyGateway
